import Mathlib

/-!
Verification development for the HelixScreen telemetry analytics engine
(scripts/telemetry-analyze.py).  The Python program is shallowly embedded:
JSON scalar values become the inductive type SVal, raw events and normalized
rows become association lists from field names to values, pandas DataFrame
cells that are NaN/None are represented by the scalar null, and the numeric
domain (Python floats) is modelled by the rationals.  Python round(x, n)
(round-half-to-even) is modelled exactly by pyRound.
-/

/-- A JSON scalar as the analyzer sees it; null also stands for a missing
DataFrame cell (pandas NaN) since json null and a missing key both surface
as Python None through dict.get. -/
inductive SVal where
  | null : SVal
  | b (x : Bool) : SVal
  | num (x : ℚ) : SVal
  | str (x : String) : SVal
deriving DecidableEq, Repr

/-- A raw JSON value at the nesting depth the analyzer consumes: a scalar, a
list of scalars (the session features list), or an object of scalars (the
nested sections that get flattened with the section.field convention). -/
inductive RVal where
  | scalar (v : SVal) : RVal
  | list (l : List SVal) : RVal
  | obj (m : List (String × SVal)) : RVal
deriving DecidableEq, Repr

/-- A raw event record: a JSON object, i.e. field name to value. -/
abbrev RawEvent := List (String × RVal)

/-- A normalized (flattened) row: field name to value.  A key that is absent
models a column the row never produced; a key mapped to scalar null models a
present-but-NaN cell.  Both read back as null through colVal, matching how
pandas surfaces them. -/
abbrev Row := List (String × RVal)

/-- Python ev.get(k): the value if the key is present, None otherwise. -/
def getR (ev : RawEvent) (k : String) : RVal :=
  (ev.lookup k).getD (RVal.scalar SVal.null)

/-- Read a DataFrame cell: missing key and null both read as null (NaN). -/
def colVal (r : Row) (k : String) : RVal :=
  (r.lookup k).getD (RVal.scalar SVal.null)

/-- pd.isna at cell level. -/
def isNA (v : RVal) : Bool :=
  decide (v = RVal.scalar SVal.null)

/-- Column membership for a relation: the key was produced by some row
(possibly with a null value), mirroring DataFrame column presence. -/
def hasColumn (rel : List Row) (k : String) : Bool :=
  rel.any (fun r => (r.lookup k).isSome)

/-- DataFrame column assignment df[k] = v for one row: overwrite the key. -/
def setCol (r : Row) (k : String) (v : RVal) : Row :=
  (r.filter (fun p => !(decide (p.1 = k)))) ++ [(k, v)]

/-- Round half to even (Python round) to an integer. -/
def rhe (q : ℚ) : ℤ :=
  let f : ℤ := ⌊q⌋
  if q - (f : ℚ) < 1/2 then f
  else if q - (f : ℚ) > 1/2 then f + 1
  else if f % 2 = 0 then f else f + 1

/-- Python round(q, n). -/
def pyRound (q : ℚ) (n : ℕ) : ℚ :=
  ((rhe (q * (10 ^ n)) : ℚ)) / (10 ^ n)

/-- A bucket triple (low, high, label); high = none is floatype inf, the
unbounded last range. -/
structure Bkt where
  lo : ℚ
  hi : Option ℚ
  label : String
deriving DecidableEq, Repr

/-- The test low <= value < high of bucket_value's loop. -/
def bktMatches (v : ℚ) (b : Bkt) : Bool :=
  decide (b.lo ≤ v) &&
    (match b.hi with
     | none => true
     | some h => decide (v < h))

/-- bucket_value from the source: null/non-numeric values give unknown,
otherwise the label of the first matching triple, else unknown. -/
def bucket_value (value : Option ℚ) (buckets : List Bkt) : String :=
  match value with
  | none => "unknown"
  | some x =>
    match buckets.find? (bktMatches x) with
    | some b => b.label
    | none => "unknown"

def RAM_BUCKETS : List Bkt :=
  [⟨0, some 512, "<512MB"⟩,
   ⟨512, some 1024, "512MB-1GB"⟩,
   ⟨1024, some 2048, "1-2GB"⟩,
   ⟨2048, some 4096, "2-4GB"⟩,
   ⟨4096, some 8192, "4-8GB"⟩,
   ⟨8192, none, "8GB+"⟩]

def NOZZLE_TEMP_BUCKETS : List Bkt :=
  [⟨0, some 180, "<180C"⟩,
   ⟨180, some 200, "180-200C"⟩,
   ⟨200, some 220, "200-220C"⟩,
   ⟨220, some 250, "220-250C"⟩,
   ⟨250, some 280, "250-280C"⟩,
   ⟨280, some 310, "280-310C"⟩,
   ⟨310, none, "310C+"⟩]

def BED_TEMP_BUCKETS : List Bkt :=
  [⟨0, some 40, "<40C"⟩,
   ⟨40, some 60, "40-60C"⟩,
   ⟨60, some 80, "60-80C"⟩,
   ⟨80, some 100, "80-100C"⟩,
   ⟨100, some 120, "100-120C"⟩,
   ⟨120, none, "120C+"⟩]

def UPTIME_BUCKETS : List Bkt :=
  [⟨0, some 60, "<1min"⟩,
   ⟨60, some 300, "1-5min"⟩,
   ⟨300, some 900, "5-15min"⟩,
   ⟨900, some 3600, "15min-1hr"⟩,
   ⟨3600, some 14400, "1-4hr"⟩,
   ⟨14400, none, "4hr+"⟩]

/-- The four bucket sets the metric calculators use. -/
def fourBucketSets : List (List Bkt) :=
  [RAM_BUCKETS, NOZZLE_TEMP_BUCKETS, BED_TEMP_BUCKETS, UPTIME_BUCKETS]

/-- Well-formedness of a bucket list: contiguous half-open ranges starting at
a, each upper bound strictly above its lower bound, ending in the unbounded
range.  All four source bucket lists satisfy chainFromB 0. -/
def chainFromB (a : ℚ) : List Bkt → Bool
  | [] => false
  | [b] => decide (b.lo = a) && decide (b.hi = none)
  | b :: rest =>
    decide (b.lo = a) &&
      (match b.hi with
       | some h => decide (a < h) && chainFromB h rest
       | none => false)

/-- Adjacent-range boundary points of a bucket list, paired with the label of
the higher range (the one whose inclusive lower bound the boundary is). -/
def sharedBoundaries (bs : List Bkt) : List (ℚ × String) :=
  (bs.zip bs.tail).filterMap
    (fun p =>
      match p.1.hi with
      | some h => if p.2.lo = h then some (h, p.2.label) else none
      | none => none)

/-- A unified-relation row after timestamp parsing: the parsed timestamp (in
epoch seconds, none when pd.to_datetime with errors coerce produced NaT) next
to the flattened row. -/
structure TRow where
  ts : Option Int
  row : Row
deriving DecidableEq, Repr

/-- One calendar day in seconds, the pd.Timedelta(days = 1) of load_events. -/
def daySec : Int := 86400

/-- The time-window filter of load_events: an inclusive lower bound at the
since instant, then an exclusive upper bound at the until instant plus one
day; rows with an unparseable (none) timestamp fail either comparison. -/
def windowFilter (rows : List TRow) (since untl : Option Int) : List TRow :=
  let r1 :=
    match since with
    | none => rows
    | some s =>
      rows.filter (fun r =>
        match r.ts with
        | some t => decide (s ≤ t)
        | none => false)
  match untl with
  | none => r1
  | some u =>
    r1.filter (fun r =>
      match r.ts with
      | some t => decide (t < u + daySec)
      | none => false)

/-- Modelled from the spec: the retention predicate the claim describes, a
row is kept when its parsed timestamp satisfies every supplied bound, and a
row with an unparseable timestamp fails whenever a bound is supplied. -/
def windowKeep (since untl : Option Int) (r : TRow) : Bool :=
  (match since with
   | none => true
   | some s =>
     match r.ts with
     | some t => decide (s ≤ t)
     | none => false) &&
  (match untl with
   | none => true
   | some u =>
     match r.ts with
     | some t => decide (t < u + daySec)
     | none => false)

/-- Epoch seconds of 2026-02-10T00:00:00Z. -/
def scWindowDay : Int := 1770681600

/-- An event timestamped 2026-02-10T23:59:59Z. -/
def scRow1 : TRow := ⟨some 1770767999, [("event", RVal.scalar (SVal.str "session"))]⟩

/-- An event timestamped 2026-02-11T00:00:01Z. -/
def scRow2 : TRow := ⟨some 1770768001, [("event", RVal.scalar (SVal.str "session"))]⟩

/-- The four universal fields every flattened event row carries. -/
def universalRow (ev : RawEvent) : Row :=
  [("event", getR ev "event"),
   ("device_id", getR ev "device_id"),
   ("timestamp", getR ev "timestamp"),
   ("schema_version", getR ev "schema_version")]

/-- Flatten one nested section with the section.field naming convention;
a missing or non-object section contributes nothing. -/
def flatSection (ev : RawEvent) (sec : String) : List (String × RVal) :=
  match ev.lookup sec with
  | some (RVal.obj m) => m.map (fun p => (sec ++ "." ++ p.1, RVal.scalar p.2))
  | _ => []

/-- Copy a fixed list of top-level fields via dict.get (null when absent). -/
def copyFields (ev : RawEvent) (ks : List String) : List (String × RVal) :=
  ks.map (fun k => (k, getR ev k))

/-- The event tag used for dispatch; the comparisons in load_events succeed
only when the event field holds a string. -/
def evTag (ev : RawEvent) : Option String :=
  match getR ev "event" with
  | RVal.scalar (SVal.str s) => some s
  | _ => none

def printOutcomeFields : List String :=
  ["outcome", "duration_sec", "phases_completed", "filament_used_mm",
   "filament_type", "nozzle_temp", "bed_temp"]

def crashFields : List String :=
  ["signal", "signal_name", "app_version", "uptime_sec", "backtrace"]

def updateFailedFields : List String :=
  ["reason", "version", "from_version", "platform", "http_code",
   "file_size", "exit_code"]

def updateSuccessFields : List String :=
  ["version", "from_version", "platform"]

def memoryFields : List String :=
  ["trigger", "uptime_sec", "rss_kb", "vm_size_kb", "vm_data_kb",
   "vm_swap_kb", "vm_peak_kb", "vm_hwm_kb"]

def settingsFields : List String :=
  ["theme", "brightness_pct", "screensaver_timeout_sec",
   "screen_blank_timeout_sec", "locale", "sound_enabled",
   "auto_update_channel", "animations_enabled", "time_format"]

def connectionFields : List String :=
  ["session_duration_sec", "connect_count", "disconnect_count",
   "total_connected_sec", "total_disconnected_sec",
   "longest_disconnect_sec", "klippy_error_count", "klippy_shutdown_count"]

def printStartFields : List String :=
  ["source", "has_thumbnail", "file_size_bucket",
   "estimated_duration_bucket", "slicer", "tool_count_used", "ams_active"]

def errorFields : List String :=
  ["category", "code", "context", "uptime_sec"]

def sessionSections : List String := ["app", "host", "printer"]

def hardwareSections : List String :=
  ["printer", "mcus", "build_volume", "extruders", "fans", "steppers",
   "leds", "sensors", "probe", "capabilities", "ams", "tools", "macros",
   "plugins"]

def panelSections : List String := ["panel_time_sec", "panel_visits"]

/-- The Event Normalizer of load_events: the four universal fields plus the
per-type allow-listed fields; session and hardware sections are flattened
with dot names; the session features field defaults to the empty list when
the key is absent (ev.get with a list default). -/
def normalizeEvent (ev : RawEvent) : Row :=
  universalRow ev ++
  (match evTag ev with
   | some "session" =>
     flatSection ev "app" ++ flatSection ev "host" ++
       flatSection ev "printer" ++
       [("features", (ev.lookup "features").getD (RVal.list []))]
   | some "print_outcome" => copyFields ev printOutcomeFields
   | some "crash" => copyFields ev crashFields
   | some "update_failed" => copyFields ev updateFailedFields
   | some "update_success" => copyFields ev updateSuccessFields
   | some "memory_snapshot" => copyFields ev memoryFields
   | some "hardware_profile" =>
     (hardwareSections.map (flatSection ev)).flatten ++
       [("display_backend", getR ev "display_backend")]
   | some "settings_snapshot" => copyFields ev settingsFields
   | some "panel_usage" =>
     [("session_duration_sec", getR ev "session_duration_sec"),
      ("overlay_open_count", getR ev "overlay_open_count")] ++
       flatSection ev "panel_time_sec" ++ flatSection ev "panel_visits"
   | some "connection_stability" => copyFields ev connectionFields
   | some "print_start_context" => copyFields ev printStartFields
   | some "error_encountered" => copyFields ev errorFields
   | _ => [])

/-- The twelve event type tags the Relation Splitter filters on. -/
def twelveTags : List String :=
  ["session", "print_outcome", "crash", "update_failed", "update_success",
   "memory_snapshot", "hardware_profile", "settings_snapshot",
   "panel_usage", "connection_stability", "print_start_context",
   "error_encountered"]

/-- One typed sub-relation: the rows whose event cell equals the tag, in
unified-relation order (df filtering by equality on the event column). -/
def splitRel (t : String) (rows : List Row) : List Row :=
  rows.filter (fun r => decide (colVal r "event" = RVal.scalar (SVal.str t)))

/-- A row whose event cell is one of the twelve recognized string tags. -/
def recognizedTag (r : Row) : Bool :=
  match colVal r "event" with
  | RVal.scalar (SVal.str t) => twelveTags.contains t
  | _ => false

/-- A minimal row carrying only an event tag. -/
def mkTagRow (t : String) : Row := [("event", RVal.scalar (SVal.str t))]

/-- A unified relation holding one row of each recognized type. -/
def u12 : List Row := twelveTags.map mkTagRow

/-- One step of the Python counting loop: increment the entry of a key in
the ordered dict, appending a fresh entry with count 1 when absent. -/
def bumpCount [DecidableEq α] (x : α) : List (α × ℕ) → List (α × ℕ)
  | [] => [(x, 1)]
  | p :: ps => if p.1 = x then (p.1, p.2 + 1) :: ps else p :: bumpCount x ps

/-- Occurrence counts in first-encounter order, the Python dict built by
iterating values and incrementing per key. -/
def tally [DecidableEq α] (l : List α) : List (α × ℕ) :=
  l.foldl (fun acc x => bumpCount x acc) []

/-- Stable insertion for a descending-by-count sort: the new element goes in
front of the first strictly smaller count, after any equal counts. -/
def insDesc (x : α × ℕ) : List (α × ℕ) → List (α × ℕ)
  | [] => [x]
  | y :: ys => if y.2 ≤ x.2 then x :: y :: ys else y :: insDesc x ys

/-- Stable sort by descending count, the behavior of sorted with key minus
count over a dict in insertion order. -/
def sortDescByCount (l : List (α × ℕ)) : List (α × ℕ) :=
  l.foldr insDesc []

/-- pandas value_counts: occurrence counts sorted by descending count. -/
def valueCounts [DecidableEq α] (l : List α) : List (α × ℕ) :=
  sortDescByCount (tally l)

/-- The session features cell when it holds a list (the isinstance test of
compute_adoption_metrics); none otherwise. -/
def featList (r : Row) : Option (List SVal) :=
  match colVal r "features" with
  | RVal.list l => some l
  | _ => none

/-- Count of sessions whose features cell is a list (the denominator
total_with_features). -/
def featureDenom (s : List Row) : ℕ :=
  s.countP (fun r => (featList r).isSome)

/-- Per-feature occurrence counts over all list-valued features cells, keys
in first-encounter order (the feature_counts dict). -/
def featureCounts (s : List Row) : List (SVal × ℕ) :=
  tally (s.flatMap (fun r => (featList r).getD []))

/-- feature_adoption_rates: occurrence count over the list-session count,
times 100, rounded to 1 decimal, sorted by descending raw count; empty when
no session has a list-valued features cell. -/
def featureAdoptionRates (s : List Row) : List (SVal × ℚ) :=
  if 0 < featureDenom s then
    (sortDescByCount (featureCounts s)).map
      (fun e => (e.1, pyRound ((e.2 : ℚ) / (featureDenom s : ℚ) * 100) 1))
  else []

/-- The adoption calculator computes feature rates only when the features
column exists on the session relation. -/
def featureAdoptionRatesOpt (s : List Row) : Option (List (SVal × ℚ)) :=
  if hasColumn s "features" then some (featureAdoptionRates s) else none

/-- Three raw session events: one omits features entirely, one lists feature
a once, one lists feature b twice. -/
def demoFeatSessions : List RawEvent :=
  [[("event", RVal.scalar (SVal.str "session"))],
   [("event", RVal.scalar (SVal.str "session")),
    ("features", RVal.list [SVal.str "a"])],
   [("event", RVal.scalar (SVal.str "session")),
    ("features", RVal.list [SVal.str "b", SVal.str "b"])]]

/-- The device-to-value lookup of join_session_field: the groupby first
aggregation takes, per device, the first non-null value of the field in
relation order; devices with a null id are not groupby keys. -/
def deviceFirst (sessions : List Row) (field : String) (dev : RVal) : RVal :=
  if isNA dev then RVal.scalar SVal.null
  else
    match sessions.find?
        (fun r => decide (colVal r "device_id" = dev) && !(isNA (colVal r field))) with
    | some r => colVal r field
    | none => RVal.scalar SVal.null

/-- join_session_field: when the field is a column of the session relation,
map each target row's device id through the first-value lookup and write the
result into the field column of a copy; otherwise return the target
unchanged. -/
def join_session_field (sessions target : List Row) (field : String) : List Row :=
  if hasColumn sessions field then
    target.map
      (fun r => setCol r field (deviceFirst sessions field (colVal r "device_id")))
  else target

/-- Modelled from the spec: among the session rows sharing the device id, in
relation order, the first-encountered value of the field (its non-null
occurrences), null when there is none. -/
def firstFieldValueSpec (sessions : List Row) (field : String) (dev : RVal) : RVal :=
  if isNA dev then RVal.scalar SVal.null
  else
    ((((sessions.filter (fun r => decide (colVal r "device_id" = dev))).map
        (fun r => colVal r field)).find? (fun v => !(isNA v))).getD
      (RVal.scalar SVal.null))

/-- A session relation whose single row does not carry field f. -/
def cexJoinSessions : List Row :=
  [[("device_id", RVal.scalar (SVal.str "A"))]]

/-- A target relation whose single row already carries field f. -/
def cexJoinTarget : List Row :=
  [[("device_id", RVal.scalar (SVal.str "A")),
    ("f", RVal.scalar (SVal.str "orig"))]]

/-- The non-null outcome cells of the print relation, in order. -/
def outcomeVals (p : List Row) : List RVal :=
  (p.map (fun r => colVal r "outcome")).filter (fun v => !(isNA v))

/-- outcome_counts: value_counts of the outcome column (nulls dropped). -/
def outcomeCounts (p : List Row) : List (RVal × ℕ) :=
  valueCounts (outcomeVals p)

/-- outcome_rates: each outcome count over the total number of print rows
(nulls included), times 100, rounded to 1 decimal. -/
def outcomeRates (p : List Row) : List (RVal × ℚ) :=
  (outcomeCounts p).map
    (fun e => (e.1, pyRound ((e.2 : ℚ) / (p.length : ℚ) * 100) 1))

/-- compute_print_metrics emits counts and rates only when the outcome
column exists. -/
def outcomeRatesOpt (p : List Row) : Option (List (RVal × ℚ)) :=
  if hasColumn p "outcome" then some (outcomeRates p) else none

/-- crash_rate inside compute_crash_metrics: absent (note only) when the
crash relation is empty, otherwise null for zero sessions, otherwise the
ratio rounded to 4 decimals. -/
def crashRate (crashes sessions : List Row) : Option (Option ℚ) :=
  if crashes.isEmpty then none
  else
    some
      (if 0 < sessions.length then
        some (pyRound ((crashes.length : ℚ) / (sessions.length : ℚ)) 4)
      else none)

/-- The device-to-platform lookup derived from sessions (first non-null
app.platform per device). -/
def devicePlatform (sessions : List Row) (dev : RVal) : RVal :=
  deviceFirst sessions "app.platform" dev

/-- The platform label a crash row receives: the looked-up platform, with
null filled by the string unknown. -/
def crashPlatformLabel (sessions : List Row) (r : Row) : RVal :=
  let p := devicePlatform sessions (colVal r "device_id")
  if isNA p then RVal.scalar (SVal.str "unknown") else p

/-- crashes_by_platform: computed only when the crash relation is non-empty,
the session relation is non-empty and app.platform is one of its columns;
value_counts of the filled platform labels. -/
def crashesByPlatform (crashes sessions : List Row) : Option (List (RVal × ℕ)) :=
  if crashes.isEmpty then none
  else if (!sessions.isEmpty) && hasColumn sessions "app.platform" then
    some (valueCounts (crashes.map (crashPlatformLabel sessions)))
  else none

/-- A session relation mapping device A to the literal platform string
unknown. -/
def cexPlatSessions : List Row :=
  [[("device_id", RVal.scalar (SVal.str "A")),
    ("app.platform", RVal.scalar (SVal.str "unknown"))]]

/-- A crash relation with one crash from device A. -/
def cexPlatCrashes : List Row :=
  [[("device_id", RVal.scalar (SVal.str "A"))]]

/-- pd.to_numeric with errors coerce at cell level: numbers pass through,
booleans coerce to 0 or 1, everything else (including null) becomes NaN. -/
def toNum : RVal → Option ℚ
  | RVal.scalar (SVal.num q) => some q
  | RVal.scalar (SVal.b bv) => some (if bv then 1 else 0)
  | _ => none

/-- The count of Python-True-equal cells (True, or the number 1, which
compares equal to True) used by the boolean-adoption percentages. -/
def trueCount (vals : List RVal) : ℕ :=
  vals.countP
    (fun v =>
      decide (v = RVal.scalar (SVal.b true)) ||
        decide (v = RVal.scalar (SVal.num 1)))

/-- One boolean capability adoption percentage of compute_hardware_metrics:
absent when the column does not exist, otherwise the true-count over the
non-null count times 100 rounded to 1 decimal, and 0 when every cell is
null. -/
def capabilityPct (h : List Row) (cap : String) : Option ℚ :=
  if hasColumn h cap then
    let vals := (h.map (fun r => colVal r cap)).filter (fun v => !(isNA v))
    some
      (if 0 < vals.length then
        pyRound ((trueCount vals : ℚ) / (vals.length : ℚ) * 100) 1
      else 0)
  else none

/-- A hardware relation whose capability column exists but holds only a
null cell. -/
def demoNullCapHW : List Row :=
  [[("capabilities.has_chamber", RVal.scalar SVal.null)]]

/-- success_rate of compute_update_metrics: the calculator returns only a
note when there are no attempts, otherwise successes over attempts as a
1-decimal percentage. -/
def updateSuccessRate (nFail nSucc : ℕ) : Option ℚ :=
  if nFail + nSucc = 0 then none
  else some (pyRound ((nSucc : ℚ) / ((nFail + nSucc : ℕ) : ℚ) * 100) 1)

/-- overall_connected_pct of compute_connection_metrics: needs both columns,
sums with nulls filled as 0, and is omitted when the total duration is 0. -/
def overallConnectedPct (c : List Row) : Option ℚ :=
  if hasColumn c "total_connected_sec" && hasColumn c "session_duration_sec" then
    let connSum :=
      (c.map (fun r => (toNum (colVal r "total_connected_sec")).getD 0)).sum
    let durSum :=
      (c.map (fun r => (toNum (colVal r "session_duration_sec")).getD 0)).sum
    if 0 < durSum then some (pyRound (connSum / durSum * 100) 1) else none
  else none

/-- crash_rate_per_version for one version: null when the version has zero
sessions, otherwise the 4-decimal ratio. -/
def crashRateForVersion (crashes sessions : List Row) (ver : RVal) : Option ℚ :=
  let sessCount :=
    sessions.countP (fun r => decide (colVal r "app.version" = ver))
  if 0 < sessCount then
    some
      (pyRound
        ((crashes.countP (fun r => decide (colVal r "app_version" = ver)) : ℚ) /
          (sessCount : ℚ)) 4)
  else none

/-- A field name containing no dot; every top-level field and section name
of the normalizer is dot-free, so a flattened section.field key can never
collide with one. -/
def dotFree (s : String) : Bool :=
  s.data.all (fun c => !(decide (c = '.')))

/-- The nine event types whose payload is a flat list of scalar top-level
fields, with their allow-lists. -/
def scalarTagFields : List (String × List String) :=
  [("print_outcome", printOutcomeFields),
   ("crash", crashFields),
   ("update_failed", updateFailedFields),
   ("update_success", updateSuccessFields),
   ("memory_snapshot", memoryFields),
   ("settings_snapshot", settingsFields),
   ("connection_stability", connectionFields),
   ("print_start_context", printStartFields),
   ("error_encountered", errorFields)]

/-- The four universal field names. -/
def universalFields : List String :=
  ["event", "device_id", "timestamp", "schema_version"]

/-- Whether a section key holds an object (the isinstance dict test). -/
def sectionIsObj (ev : RawEvent) (sec : String) : Bool :=
  match ev.lookup sec with
  | some (RVal.obj _) => true
  | _ => false

/-- The occurrence stream of feature names over the list-valued features
cells of a session relation, in relation order. -/
def featStream (s : List Row) : List SVal :=
  s.flatMap (fun r => (featList r).getD [])

/-- Five print rows with outcomes success, success, failed, success,
cancelled (the outcome-rate scenario of the spec). -/
def demoPrints : List Row :=
  [[("outcome", RVal.scalar (SVal.str "success"))],
   [("outcome", RVal.scalar (SVal.str "success"))],
   [("outcome", RVal.scalar (SVal.str "failed"))],
   [("outcome", RVal.scalar (SVal.str "success"))],
   [("outcome", RVal.scalar (SVal.str "cancelled"))]]

theorem chainFromB_lo_ge {a : ℚ} {bs : List Bkt} (h : chainFromB a bs = true) :
    ∀ b ∈ bs, a ≤ b.lo := by
  induction bs generalizing a with
  | nil => simp [chainFromB] at h
  | cons b rest ih =>
    cases rest with
    | nil =>
      simp [chainFromB] at h
      intro c hc
      rcases List.mem_cons.mp hc with hc | hc
      · simp [hc, h.1]
      · simp at hc
    | cons b2 rest2 =>
      simp only [chainFromB] at h
      rw [Bool.and_eq_true] at h
      have hlo : b.lo = a := by simpa using h.1
      intro c hc
      rcases List.mem_cons.mp hc with hc | hc
      · simp [hc, hlo]
      · match hhi : b.hi with
        | none => rw [hhi] at h; simp at h
        | some hb =>
          rw [hhi] at h
          rw [Bool.and_eq_true] at h
          have hah : a < hb := by simpa using h.2.1
          have := ih h.2.2 c hc
          exact le_trans (le_of_lt hah) this

theorem chainFromB_unique_match {a : ℚ} {bs : List Bkt}
    (h : chainFromB a bs = true) {v : ℚ} (hv : a ≤ v) :
    bs.countP (bktMatches v) = 1 ∧
      ∃ b, bs.find? (bktMatches v) = some b ∧ bktMatches v b = true := by
  induction bs generalizing a with
  | nil => simp [chainFromB] at h
  | cons b rest ih =>
    cases rest with
    | nil =>
      simp [chainFromB] at h
      have hm : bktMatches v b = true := by
        simp [bktMatches, h.1, h.2, hv]
      refine ⟨?_, b, ?_, hm⟩
      · simp [List.countP_cons, hm]
      · simp [List.find?, hm]
    | cons b2 rest2 =>
      simp only [chainFromB] at h
      rw [Bool.and_eq_true] at h
      have hlo : b.lo = a := by simpa using h.1
      match hhi : b.hi with
      | none => rw [hhi] at h; simp at h
      | some hb =>
        rw [hhi] at h
        rw [Bool.and_eq_true] at h
        by_cases hcase : v < hb
        · have hm : bktMatches v b = true := by
            simp [bktMatches, hlo, hhi, hv, hcase]
          have hrest : ∀ c ∈ (b2 :: rest2), bktMatches v c = false := by
            intro c hc
            have hcle : hb ≤ c.lo := chainFromB_lo_ge h.2.2 c hc
            have : ¬ (c.lo ≤ v) := by
              intro hle
              exact absurd (lt_of_le_of_lt (le_trans hcle hle) hcase) (lt_irrefl hb)
            simp [bktMatches, this]
          constructor
          · have hz : (b2 :: rest2).countP (bktMatches v) = 0 := by
              rw [List.countP_eq_zero]
              intro c hc
              simp [hrest c hc]
            simp [List.countP_cons, hm, hz]
          · exact ⟨b, by simp [List.find?, hm], hm⟩
        · have hm : bktMatches v b = false := by
            simp [bktMatches, hhi]
            intro _
            exact le_of_not_lt hcase
          have hv2 : hb ≤ v := le_of_not_lt hcase
          obtain ⟨hcount, c, hfind, hmc⟩ := ih h.2.2 hv2
          refine ⟨?_, c, ?_, hmc⟩
          · simp [List.countP_cons, hm, hcount]
          · rw [List.find?_cons_of_neg _ (by simp [hm])]
            exact hfind

theorem filter_filter_and (f g : α → Bool) (l : List α) :
    (l.filter f).filter g = l.filter (fun a => f a && g a) := by
  induction l with
  | nil => rfl
  | cons x xs ih =>
    by_cases hf : f x = true
    · by_cases hg : g x = true
      · simp [List.filter_cons, hf, hg, ih]
      · simp [List.filter_cons, hf, Bool.eq_false_iff.mpr hg, ih]
    · simp [List.filter_cons, Bool.eq_false_iff.mpr hf, ih]

/-- C2: the ingestion window filter retains exactly the rows whose parsed
timestamp satisfies the inclusive since bound and the exclusive until plus
one day bound, each only when supplied; an unparseable (null) timestamp is
retained when no bound is supplied and excluded whenever either bound is
supplied; with until = 2026-02-10, an event at 2026-02-10T23:59:59Z is
retained and one at 2026-02-11T00:00:01Z is excluded. -/
theorem windowFilter_spec :
    (∀ (rows : List TRow) (since untl : Option Int),
        windowFilter rows since untl = rows.filter (windowKeep since untl)) ∧
    (∀ rows : List TRow, windowFilter rows none none = rows) ∧
    (∀ (s : Int) (untl : Option Int) (row : Row),
        windowKeep (some s) untl ⟨none, row⟩ = false) ∧
    (∀ (since : Option Int) (u : Int) (row : Row),
        windowKeep since (some u) ⟨none, row⟩ = false) ∧
    windowFilter [scRow1, scRow2] none (some scWindowDay) = [scRow1] ∧
    windowKeep none (some scWindowDay) scRow1 = true ∧
    windowKeep none (some scWindowDay) scRow2 = false := by
  refine ⟨?_, ?_, ?_, ?_, by decide, by decide, by decide⟩
  · intro rows since untl
    cases since with
    | none =>
      cases untl with
      | none =>
        have h0 : windowFilter rows none none = rows := rfl
        rw [h0]
        symm
        rw [List.filter_eq_self]
        intro r hr
        simp [windowKeep]
      | some u =>
        simp only [windowFilter]
        exact List.filter_congr (fun r hr => by simp [windowKeep])
    | some s =>
      cases untl with
      | none =>
        simp only [windowFilter]
        exact List.filter_congr (fun r hr => by simp [windowKeep])
      | some u =>
        simp only [windowFilter, filter_filter_and]
        exact List.filter_congr (fun r hr => by simp [windowKeep])
  · intro rows
    simp [windowFilter]
  · intro s untl row
    cases untl <;> simp [windowKeep]
  · intro since u row
    cases since <;> simp [windowKeep]

theorem find?_eq_none_of_countP_zero {p : α → Bool} {l : List α}
    (h : ∀ a ∈ l, p a = false) : l.find? p = none := by
  rw [List.find?_eq_none]
  intro a ha
  simp [h a ha]

/-- C4: bucket_value is total over each of the four fixed bucket sets: a
null (or non-numeric, coerced to null) value gives unknown, otherwise the
label of the first matching low-inclusive high-exclusive triple, unknown
when no triple matches; every non-negative value matches exactly one triple
and never maps to unknown, and every negative value maps to unknown. -/
theorem bucket_value_total_spec (bs : List Bkt)
    (hbs : bs = RAM_BUCKETS ∨ bs = NOZZLE_TEMP_BUCKETS ∨
      bs = BED_TEMP_BUCKETS ∨ bs = UPTIME_BUCKETS) (v : ℚ) :
    bucket_value none bs = "unknown" ∧
    (∀ b, bs.find? (bktMatches v) = some b → bucket_value (some v) bs = b.label) ∧
    (bs.find? (bktMatches v) = none → bucket_value (some v) bs = "unknown") ∧
    (0 ≤ v → bs.countP (bktMatches v) = 1 ∧ bucket_value (some v) bs ≠ "unknown") ∧
    (v < 0 → bucket_value (some v) bs = "unknown") := by
  have hchain : chainFromB 0 bs = true := by
    rcases hbs with h | h | h | h <;> subst h <;> decide
  have hlab : ∀ b ∈ bs, b.label ≠ "unknown" := by
    rcases hbs with h | h | h | h <;> subst h <;> decide
  refine ⟨rfl, ?_, ?_, ?_, ?_⟩
  · intro b hb
    simp [bucket_value, hb]
  · intro hn
    simp [bucket_value, hn]
  · intro hv
    obtain ⟨hcount, b, hfind, hmb⟩ := chainFromB_unique_match hchain hv
    refine ⟨hcount, ?_⟩
    have hb : b ∈ bs := List.mem_of_find?_eq_some hfind
    simp [bucket_value, hfind]
    exact hlab b hb
  · intro hv
    have hnone : bs.find? (bktMatches v) = none := by
      apply find?_eq_none_of_countP_zero
      intro b hb
      have h0 : (0 : ℚ) ≤ b.lo := chainFromB_lo_ge hchain b hb
      have : ¬ (b.lo ≤ v) := fun hle => absurd (lt_of_lt_of_le hv h0) (not_lt.mpr hle)
      simp [bktMatches, this]
    simp [bucket_value, hnone]

theorem bucket_value_total_spec_witness :
    (0 : ℚ) ≤ 2048 ∧
      RAM_BUCKETS.countP (bktMatches 2048) = 1 ∧
      bucket_value (some 2048) RAM_BUCKETS ≠ "unknown" ∧
      bucket_value none RAM_BUCKETS = "unknown" := by
  have h := bucket_value_total_spec RAM_BUCKETS (Or.inl rfl) 2048
  have h2 := h.2.2.2.1 (by norm_num)
  exact ⟨by norm_num, h2.1, h2.2, h.1⟩

/-- C5: for each of the four bucket sets, a value exactly equal to a
boundary shared by two adjacent ranges is classified into the higher range,
the one whose inclusive lower bound it is; in particular a host.ram_total_mb
of 2048 lands in the 2-4GB bucket, not 1-2GB. -/
theorem bucket_boundary_spec (bs : List Bkt) (hbs : bs ∈ fourBucketSets)
    (p : ℚ × String) (hp : p ∈ sharedBoundaries bs) :
    bucket_value (some p.1) bs = p.2 ∧
      bucket_value (some 2048) RAM_BUCKETS = "2-4GB" ∧
      bucket_value (some 2048) RAM_BUCKETS ≠ "1-2GB" := by
  refine ⟨?_, by decide, by decide⟩
  simp only [fourBucketSets] at hbs
  rcases List.mem_cons.mp hbs with h | hbs
  · subst h; revert hp; revert p; decide
  rcases List.mem_cons.mp hbs with h | hbs
  · subst h; revert hp; revert p; decide
  rcases List.mem_cons.mp hbs with h | hbs
  · subst h; revert hp; revert p; decide
  rcases List.mem_cons.mp hbs with h | hbs
  · subst h; revert hp; revert p; decide
  · simp at hbs

theorem bucket_boundary_spec_witness :
    bucket_value (some 2048) RAM_BUCKETS = "2-4GB" := by
  have h := bucket_boundary_spec RAM_BUCKETS (by decide)
    ((2048 : ℚ), "2-4GB") (by decide)
  exact h.1

theorem bumpCount_snd_sum [DecidableEq α] (x : α) (acc : List (α × ℕ)) :
    ((bumpCount x acc).map Prod.snd).sum = ((acc.map Prod.snd).sum) + 1 := by
  induction acc with
  | nil => simp [bumpCount]
  | cons p ps ih =>
    by_cases h : p.1 = x
    · simp [bumpCount, h]
      omega
    · simp [bumpCount, h, ih]
      omega

theorem foldl_bump_snd_sum [DecidableEq α] (l : List α) :
    ∀ acc : List (α × ℕ),
      (((l.foldl (fun acc x => bumpCount x acc) acc).map Prod.snd).sum) =
        (acc.map Prod.snd).sum + l.length := by
  induction l with
  | nil =>
    intro acc
    simp
  | cons x xs ih =>
    intro acc
    simp only [List.foldl_cons, List.length_cons]
    rw [ih (bumpCount x acc), bumpCount_snd_sum]
    omega

theorem tally_snd_sum [DecidableEq α] (l : List α) :
    ((tally l).map Prod.snd).sum = l.length := by
  have h := foldl_bump_snd_sum l []
  simpa [tally] using h

theorem bumpCount_lookup [DecidableEq α] (x y : α) (acc : List (α × ℕ)) :
    (bumpCount x acc).lookup y =
      if y = x then some (((acc.lookup y).getD 0) + 1) else acc.lookup y := by
  induction acc with
  | nil =>
    by_cases h : y = x
    · subst h
      simp [bumpCount, List.lookup]
    · have hb : (y == x) = false := by simp [h]
      simp [bumpCount, List.lookup, h, hb]
  | cons p ps ih =>
    cases p with
    | mk a c =>
      by_cases hax : a = x
      · subst hax
        by_cases hy : y = a
        · subst hy
          simp [bumpCount, List.lookup]
        · have hb : (y == a) = false := by simp [hy]
          simp [bumpCount, List.lookup, hy, hb]
      · by_cases hy : y = a
        · subst hy
          have hyx : ¬ (y = x) := fun he => hax he
          simp [bumpCount, hax, List.lookup, hyx]
        · have hb : (y == a) = false := by simp [hy]
          simp [bumpCount, hax, List.lookup, hb, ih]

theorem foldl_bump_lookup [DecidableEq α] (l : List α) :
    ∀ (acc : List (α × ℕ)) (y : α),
      (l.foldl (fun acc x => bumpCount x acc) acc).lookup y =
        (match acc.lookup y with
         | some c => some (c + l.count y)
         | none => if y ∈ l then some (l.count y) else none) := by
  induction l with
  | nil =>
    intro acc y
    cases h : acc.lookup y <;> simp [h]
  | cons x xs ih =>
    intro acc y
    simp only [List.foldl_cons]
    rw [ih (bumpCount x acc) y, bumpCount_lookup]
    by_cases hyx : y = x
    · subst hyx
      cases h : acc.lookup y with
      | some c =>
        simp only [if_pos rfl, h, Option.getD_some, List.count_cons, beq_self_eq_true,
          if_pos, List.mem_cons]
        simp
        omega
      | none =>
        simp only [if_pos rfl, h, Option.getD_none, List.count_cons, beq_self_eq_true,
          List.mem_cons]
        simp
        omega
    · have hb : (x == y) = false := by
        simp
        exact fun he => hyx he.symm
      cases h : acc.lookup y with
      | some c =>
        simp [h, hyx, List.count_cons, hb]
      | none =>
        simp [h, hyx, List.count_cons, hb, List.mem_cons]

theorem tally_lookup [DecidableEq α] (l : List α) (y : α) :
    (tally l).lookup y = if y ∈ l then some (l.count y) else none := by
  have h := foldl_bump_lookup l [] y
  simpa [tally, List.lookup] using h

theorem bumpCount_keys [DecidableEq α] (x : α) (acc : List (α × ℕ)) :
    (bumpCount x acc).map Prod.fst =
      (if x ∈ acc.map Prod.fst then acc.map Prod.fst
       else acc.map Prod.fst ++ [x]) := by
  induction acc with
  | nil => simp [bumpCount]
  | cons p ps ih =>
    by_cases h : p.1 = x
    · simp [bumpCount, h]
    · have hne : ¬ (x = p.1) := fun he => h he.symm
      simp [bumpCount, h, ih, hne]
      by_cases hm : x ∈ ps.map Prod.fst
      · simp [hm]
      · simp [hm, hne]

theorem bumpCount_keys_nodup [DecidableEq α] (x : α) (acc : List (α × ℕ))
    (h : (acc.map Prod.fst).Nodup) : ((bumpCount x acc).map Prod.fst).Nodup := by
  rw [bumpCount_keys]
  by_cases hm : x ∈ acc.map Prod.fst
  · simp [hm, h]
  · simp [hm]
    rw [List.nodup_append]
    exact ⟨h, by simp, by simp [hm]⟩

theorem tally_keys_nodup [DecidableEq α] (l : List α) :
    ((tally l).map Prod.fst).Nodup := by
  have h : ∀ acc : List (α × ℕ), (acc.map Prod.fst).Nodup →
      ((l.foldl (fun acc x => bumpCount x acc) acc).map Prod.fst).Nodup := by
    induction l with
    | nil =>
      intro acc hacc
      simpa using hacc
    | cons x xs ih =>
      intro acc hacc
      simp only [List.foldl_cons]
      exact ih (bumpCount x acc) (bumpCount_keys_nodup x acc hacc)
  exact h [] (by simp)

theorem lookup_mem_iff_of_nodup {l : List (α × ℕ)} [DecidableEq α]
    (h : (l.map Prod.fst).Nodup) (y : α) (n : ℕ) :
    (y, n) ∈ l ↔ l.lookup y = some n := by
  induction l with
  | nil => simp [List.lookup]
  | cons p ps ih =>
    cases p with
    | mk a c =>
      simp only [List.map_cons, List.nodup_cons] at h
      by_cases hy : y = a
      · subst hy
        simp only [List.lookup, beq_self_eq_true, List.mem_cons]
        constructor
        · intro hm
          rcases hm with hm | hm
          · simp at hm
            simp [hm]
          · exact absurd (List.mem_map.mpr ⟨(y, n), hm, rfl⟩) h.1
        · intro hm
          simp at hm
          simp [hm]
      · have hb : (y == a) = false := by simp [hy]
        simp only [List.lookup, hb, List.mem_cons]
        rw [← ih h.2]
        constructor
        · intro hm
          rcases hm with hm | hm
          · exact absurd (congrArg Prod.fst hm) (by simpa using hy)
          · exact hm
        · intro hm
          exact Or.inr hm

theorem tally_mem_iff [DecidableEq α] (l : List α) (y : α) (n : ℕ) :
    (y, n) ∈ tally l ↔ (y ∈ l ∧ n = l.count y) := by
  rw [lookup_mem_iff_of_nodup (tally_keys_nodup l), tally_lookup]
  by_cases hm : y ∈ l
  · simp [hm]
    constructor
    · intro h
      exact h.symm
    · intro h
      exact h.symm
  · simp [hm]

theorem insDesc_perm (x : α × ℕ) (l : List (α × ℕ)) :
    (insDesc x l).Perm (x :: l) := by
  induction l with
  | nil => simp [insDesc]
  | cons y ys ih =>
    rw [insDesc]
    by_cases h : y.2 ≤ x.2
    · simp [h]
    · simp only [if_neg h]
      exact (ih.cons y).trans (List.Perm.swap x y ys)

theorem sortDescByCount_perm (l : List (α × ℕ)) :
    (sortDescByCount l).Perm l := by
  induction l with
  | nil => simp [sortDescByCount]
  | cons x xs ih =>
    have h1 : sortDescByCount (x :: xs) = insDesc x (sortDescByCount xs) := rfl
    rw [h1]
    exact (insDesc_perm x (sortDescByCount xs)).trans (ih.cons x)

theorem insDesc_sorted (x : α × ℕ) (l : List (α × ℕ))
    (h : l.Pairwise (fun a b => b.2 ≤ a.2)) :
    (insDesc x l).Pairwise (fun a b => b.2 ≤ a.2) := by
  induction l with
  | nil => simp [insDesc]
  | cons y ys ih =>
    rw [insDesc]
    rcases List.pairwise_cons.mp h with ⟨hy, hys⟩
    by_cases hle : y.2 ≤ x.2
    · simp only [if_pos hle]
      refine List.pairwise_cons.mpr ⟨?_, h⟩
      intro z hz
      rcases List.mem_cons.mp hz with hz | hz
      · simp [hz, hle]
      · exact le_trans (hy z hz) hle
    · simp only [if_neg hle]
      refine List.pairwise_cons.mpr ⟨?_, ih hys⟩
      intro z hz
      have hz2 : z ∈ x :: ys := (insDesc_perm x ys).mem_iff.mp hz
      rcases List.mem_cons.mp hz2 with hz2 | hz2
      · subst hz2
        exact le_of_lt (lt_of_not_le hle)
      · exact hy z hz2

theorem sortDescByCount_sorted (l : List (α × ℕ)) :
    (sortDescByCount l).Pairwise (fun a b => b.2 ≤ a.2) := by
  induction l with
  | nil => simp [sortDescByCount]
  | cons x xs ih => exact insDesc_sorted x (sortDescByCount xs) ih

theorem valueCounts_mem_iff [DecidableEq α] (l : List α) (y : α) (n : ℕ) :
    (y, n) ∈ valueCounts l ↔ (y ∈ l ∧ n = l.count y) := by
  rw [← tally_mem_iff]
  exact (sortDescByCount_perm (tally l)).mem_iff

theorem valueCounts_snd_sum [DecidableEq α] (l : List α) :
    ((valueCounts l).map Prod.snd).sum = l.length := by
  rw [← tally_snd_sum l]
  exact ((sortDescByCount_perm (tally l)).map Prod.snd).sum_eq

theorem filter_length_countP (p : α → Bool) (l : List α) :
    (l.filter p).length = l.countP p := by
  induction l with
  | nil => rfl
  | cons x xs ih =>
    by_cases h : p x = true <;>
      simp [List.filter_cons, List.countP_cons, h, ih]

theorem sum_map_add (l : List β) (f g : β → ℕ) :
    (l.map (fun t => f t + g t)).sum = (l.map f).sum + (l.map g).sum := by
  induction l with
  | nil => rfl
  | cons x xs ih => simp [ih]; omega

theorem sum_map_ite_zero (l : List β) (P : β → Prop) [DecidablePred P]
    (h : ∀ t ∈ l, ¬ P t) :
    (l.map (fun t => if P t then (1 : ℕ) else 0)).sum = 0 := by
  induction l with
  | nil => rfl
  | cons x xs ih =>
    simp only [List.map_cons, List.sum_cons]
    rw [if_neg (h x (by simp))]
    rw [ih (fun t ht => h t (by simp [ht]))]

theorem sum_map_indicator [DecidableEq β] (l : List β) (hnd : l.Nodup) (s : β) :
    (l.map (fun t => if s = t then (1 : ℕ) else 0)).sum = if s ∈ l then 1 else 0 := by
  induction l with
  | nil => rfl
  | cons x xs ih =>
    rcases List.nodup_cons.mp hnd with ⟨hx, hnd2⟩
    by_cases hs : s = x
    · subst hs
      simp only [List.map_cons, List.sum_cons, if_pos rfl]
      rw [sum_map_ite_zero xs _ (fun t ht he => hx (by rw [he]; exact ht))]
      simp
    · simp only [List.map_cons, List.sum_cons, if_neg hs, ih hnd2]
      simp [List.mem_cons, hs]

/-- C6 (amended): splitting the unified relation is a pure filter by event
tag preserving row order, and the total row count equals the sum of the
twelve split relations' sizes plus the count of rows whose event tag is
unrecognized. -/
theorem split_twelve_spec :
    ∀ rows : List Row,
      (rows.length =
        (twelveTags.map (fun t => (splitRel t rows).length)).sum +
          rows.countP (fun r => !(recognizedTag r))) ∧
      (∀ t, (splitRel t rows).Sublist rows) := by
  intro rows
  refine ⟨?_, fun t => List.filter_sublist _⟩
  induction rows with
  | nil => simp [splitRel]
  | cons r rs ih =>
    have hsplit : ∀ t, (splitRel t (r :: rs)).length =
        (splitRel t rs).length +
          (if colVal r "event" = RVal.scalar (SVal.str t) then 1 else 0) := by
      intro t
      simp only [splitRel, filter_length_countP, List.countP_cons]
      simp
    have hmapeq : (twelveTags.map (fun t => (splitRel t (r :: rs)).length)) =
        twelveTags.map (fun t => (splitRel t rs).length +
          (if colVal r "event" = RVal.scalar (SVal.str t) then 1 else 0)) :=
      List.map_congr_left (fun t _ => hsplit t)
    rw [hmapeq, sum_map_add]
    have hind : (twelveTags.map
        (fun t => if colVal r "event" = RVal.scalar (SVal.str t) then (1 : ℕ) else 0)).sum =
        if recognizedTag r then 1 else 0 := by
      match hre : colVal r "event" with
      | RVal.scalar (SVal.str s) =>
        have hfn : (twelveTags.map
            (fun t => if RVal.scalar (SVal.str s) = RVal.scalar (SVal.str t) then (1 : ℕ) else 0)) =
            twelveTags.map (fun t => if s = t then (1 : ℕ) else 0) := by
          apply List.map_congr_left
          intro t _
          by_cases h : s = t
          · simp [h]
          · simp [h]
        rw [hfn, sum_map_indicator twelveTags (by decide) s]
        simp only [recognizedTag, hre]
        by_cases hmem : s ∈ twelveTags
        · simp [hmem]
        · simp [hmem]
      | RVal.scalar SVal.null =>
        rw [sum_map_ite_zero _ _ (fun t _ he => by simp at he)]
        simp [recognizedTag, hre]
      | RVal.scalar (SVal.b bv) =>
        rw [sum_map_ite_zero _ _ (fun t _ he => by simp at he)]
        simp [recognizedTag, hre]
      | RVal.scalar (SVal.num q) =>
        rw [sum_map_ite_zero _ _ (fun t _ he => by simp at he)]
        simp [recognizedTag, hre]
      | RVal.list l =>
        rw [sum_map_ite_zero _ _ (fun t _ he => by simp at he)]
        simp [recognizedTag, hre]
      | RVal.obj m =>
        rw [sum_map_ite_zero _ _ (fun t _ he => by simp at he)]
        simp [recognizedTag, hre]
    rw [hind]
    simp only [List.countP_cons, List.length_cons]
    by_cases hrec : recognizedTag r = true
    · simp [hrec]
      omega
    · simp [Bool.eq_false_iff.mpr hrec]
      omega

theorem split_eleven_cex :
    u12.length = 12 ∧
    u12.countP (fun r => !(recognizedTag r)) = 0 ∧
    (twelveTags.all
      (fun omitted =>
        decide
          (((twelveTags.filter (fun t => !(decide (t = omitted)))).map
              (fun t => (splitRel t u12).length)).sum +
            u12.countP (fun r => !(recognizedTag r)) ≠ u12.length))) = true := by
  refine ⟨by decide, by decide, by decide⟩

theorem countP_not_add (q : α → Bool) (l : List α) :
    l.countP q + l.countP (fun a => !(q a)) = l.length := by
  induction l with
  | nil => rfl
  | cons x xs ih =>
    simp only [List.countP_cons, List.length_cons]
    by_cases hx : q x = true
    · simp [hx]
      omega
    · simp [Bool.eq_false_iff.mpr hx]
      omega

theorem sum_map_cast_mul (l : List (RVal × ℕ)) (c : ℚ) :
    (l.map (fun e => (e.2 : ℚ) * c)).sum = (((l.map Prod.snd).sum : ℕ) : ℚ) * c := by
  induction l with
  | nil => simp
  | cons x xs ih =>
    simp [ih]
    ring

/-- C9: each entry of outcome_rates is that outcome's row count over the
total number of print rows, nulls included, times 100 rounded to 1 decimal;
the unrounded rates sum to exactly 100 precisely when every print row has a
non-null outcome, and to strictly less than 100 precisely when some print
row lacks one. -/
theorem outcome_rates_spec (p : List Row) (hne : p ≠ [])
    (hcol : hasColumn p "outcome" = true) :
    outcomeRatesOpt p = some (outcomeRates p) ∧
    (∀ e ∈ outcomeRates p, ∃ c, (e.1, c) ∈ outcomeCounts p ∧
        e.2 = pyRound ((c : ℚ) / (p.length : ℚ) * 100) 1) ∧
    (∀ v n, (v, n) ∈ outcomeCounts p ↔
        (v ∈ outcomeVals p ∧ n = (outcomeVals p).count v)) ∧
    (((outcomeCounts p).map
        (fun e => (e.2 : ℚ) / (p.length : ℚ) * 100)).sum = 100 ↔
      ∀ r ∈ p, isNA (colVal r "outcome") = false) ∧
    (((outcomeCounts p).map
        (fun e => (e.2 : ℚ) / (p.length : ℚ) * 100)).sum < 100 ↔
      ∃ r ∈ p, isNA (colVal r "outcome") = true) := by
  have hlen0 : 0 < p.length := List.length_pos.mpr hne
  have hlenQ : (0 : ℚ) < (p.length : ℚ) := by exact_mod_cast hlen0
  have hfun : ((outcomeCounts p).map
      (fun e => (e.2 : ℚ) / (p.length : ℚ) * 100)) =
      (outcomeCounts p).map (fun e => (e.2 : ℚ) * (100 / (p.length : ℚ))) := by
    apply List.map_congr_left
    intro e _
    ring
  have hT : ((outcomeCounts p).map Prod.snd).sum = (outcomeVals p).length :=
    valueCounts_snd_sum _
  have hK : (outcomeVals p).length =
      p.countP (fun r => !(isNA (colVal r "outcome"))) := by
    simp only [outcomeVals, filter_length_countP, List.countP_map]
    rfl
  have hKle : p.countP (fun r => !(isNA (colVal r "outcome"))) ≤ p.length :=
    List.countP_le_length _
  have hsum : ((outcomeCounts p).map
      (fun e => (e.2 : ℚ) / (p.length : ℚ) * 100)).sum =
      ((p.countP (fun r => !(isNA (colVal r "outcome"))) : ℕ) : ℚ) *
        (100 / (p.length : ℚ)) := by
    rw [hfun, sum_map_cast_mul, hT, hK]
  refine ⟨by simp [outcomeRatesOpt, hcol], ?_, ?_, ?_, ?_⟩
  · intro e he
    rcases List.mem_map.mp he with ⟨c, hc, hce⟩
    refine ⟨c.2, ?_, ?_⟩
    · rw [← hce]
      simpa using hc
    · rw [← hce]
  · intro v n
    exact valueCounts_mem_iff _ v n
  · rw [hsum]
    set K := p.countP (fun r => !(isNA (colVal r "outcome"))) with hKdef
    have hiff : (K : ℚ) * (100 / (p.length : ℚ)) = 100 ↔ K = p.length := by
      rw [mul_div_assoc']
      rw [div_eq_iff (ne_of_gt hlenQ)]
      constructor
      · intro h
        have : (K : ℚ) = (p.length : ℚ) := by linarith
        exact_mod_cast this
      · intro h
        rw [h]
        ring
    rw [hiff]
    rw [List.countP_eq_length]
    constructor
    · intro h r hr
      have := h r hr
      simpa using this
    · intro h r hr
      simpa using h r hr
  · rw [hsum]
    set K := p.countP (fun r => !(isNA (colVal r "outcome"))) with hKdef
    have hiff : (K : ℚ) * (100 / (p.length : ℚ)) < 100 ↔ K < p.length := by
      rw [mul_div_assoc']
      rw [div_lt_iff hlenQ]
      constructor
      · intro h
        have : (K : ℚ) < (p.length : ℚ) := by linarith
        exact_mod_cast this
      · intro h
        have : (K : ℚ) < (p.length : ℚ) := by exact_mod_cast h
        nlinarith
    rw [hiff]
    have hcomp : p.countP (fun r => isNA (colVal r "outcome")) + K = p.length := by
      rw [hKdef]
      exact countP_not_add _ p
    have hpos : (0 < p.countP (fun r => isNA (colVal r "outcome"))) ↔
        ∃ r ∈ p, isNA (colVal r "outcome") = true := List.countP_pos
    constructor
    · intro h
      exact hpos.mp (by omega)
    · intro h
      have := hpos.mpr h
      omega

theorem outcome_rates_spec_witness :
    outcomeRatesOpt demoPrints = some (outcomeRates demoPrints) ∧
    (((outcomeCounts demoPrints).map
        (fun e => (e.2 : ℚ) / (demoPrints.length : ℚ) * 100)).sum = 100 ↔
      ∀ r ∈ demoPrints, isNA (colVal r "outcome") = false) := by
  have h := outcome_rates_spec demoPrints (by decide) (by decide)
  exact ⟨h.1, h.2.2.2.1⟩

theorem lookup_append (l1 l2 : List (String × RVal)) (k : String) :
    (l1 ++ l2).lookup k =
      (match l1.lookup k with
       | some v => some v
       | none => l2.lookup k) := by
  induction l1 with
  | nil => simp [List.lookup]
  | cons p ps ih =>
    by_cases h : k = p.1
    · simp [List.lookup, h]
    · have hb : (k == p.1) = false := by simp [h]
      cases p
      simp only [List.cons_append, List.lookup] at ih ⊢
      simp only [hb] at ih ⊢
      exact ih

theorem lookup_filter_ne (r : Row) (k k2 : String) (h : k2 ≠ k) :
    ((r.filter (fun p => !(decide (p.1 = k)))).lookup k2) = r.lookup k2 := by
  induction r with
  | nil => rfl
  | cons p ps ih =>
    cases p with
    | mk a v =>
      by_cases hp : a = k
      · subst hp
        have hb : (k2 == a) = false := by simp [h]
        simp [List.filter_cons, List.lookup, hb, ih]
      · simp only [List.filter_cons]
        have hpb : (!(decide (a = k))) = true := by simp [hp]
        simp only [hpb, if_true]
        by_cases hk2 : k2 = a
        · subst hk2
          simp [List.lookup]
        · have hb : (k2 == a) = false := by simp [hk2]
          simp [List.lookup, hb, ih]

theorem lookup_filter_self_none (r : Row) (k : String) :
    ((r.filter (fun p => !(decide (p.1 = k)))).lookup k) = none := by
  induction r with
  | nil => rfl
  | cons p ps ih =>
    by_cases hp : p.1 = k
    · simp [List.filter_cons, hp, ih]
    · have hb : (k == p.1) = false := by
        simp
        exact fun he => hp he.symm
      cases p
      simp only at hp
      simp [List.filter_cons, hp, List.lookup, hb, ih]

theorem setCol_colVal_same (r : Row) (k : String) (v : RVal) :
    colVal (setCol r k v) k = v := by
  simp only [colVal, setCol, lookup_append, lookup_filter_self_none]
  simp [List.lookup]

theorem setCol_colVal_other (r : Row) (k : String) (v : RVal) (k2 : String)
    (h : k2 ≠ k) :
    colVal (setCol r k v) k2 = colVal r k2 := by
  simp only [colVal, setCol, lookup_append, lookup_filter_ne r k k2 h]
  cases hl : r.lookup k2 with
  | some w => simp
  | none =>
    have hb : (k2 == k) = false := by simp [h]
    simp [List.lookup, hb]

theorem find?_map_filter_comm (s : List Row) (field : String) (dev : RVal) :
    (((s.filter (fun r => decide (colVal r "device_id" = dev))).map
        (fun r => colVal r field)).find? (fun v => !(isNA v))) =
      (s.find? (fun r =>
        decide (colVal r "device_id" = dev) && !(isNA (colVal r field)))).map
        (fun r => colVal r field) := by
  induction s with
  | nil => rfl
  | cons r rs ih =>
    by_cases hd : colVal r "device_id" = dev
    · by_cases hna : isNA (colVal r field) = true
      · simp only [List.filter_cons, List.find?]
        simp [hd, hna, ih]
      · simp only [List.filter_cons, List.find?]
        simp [hd, Bool.eq_false_iff.mpr hna]
    · simp only [List.filter_cons, List.find?]
      simp [hd, ih]

theorem deviceFirst_eq_spec (s : List Row) (field : String) (dev : RVal) :
    deviceFirst s field dev = firstFieldValueSpec s field dev := by
  unfold deviceFirst firstFieldValueSpec
  by_cases hna : isNA dev = true
  · simp [hna]
  · simp only [Bool.eq_false_iff.mpr hna, if_neg]
    rw [find?_map_filter_comm]
    cases hf : s.find? (fun r =>
        decide (colVal r "device_id" = dev) && !(isNA (colVal r field))) with
    | some r => simp [hf]
    | none => simp [hf]

/-- C1 (amended): when the field is a column of the session relation,
join_session_field yields a copy of the target of the same length in which
the field column of each row holds the device's first-encountered non-null
session value of the field (null when the device has no session row carrying
it), all other columns unchanged; when the field is not a session column the
target is returned unchanged and no column is attached. -/
theorem join_session_field_spec (sessions target : List Row) (field : String) :
    (hasColumn sessions field = true →
      (join_session_field sessions target field).length = target.length ∧
      ∀ (i : ℕ) (r0 : Row), target[i]? = some r0 →
        ∃ r1, (join_session_field sessions target field)[i]? = some r1 ∧
          colVal r1 field =
            firstFieldValueSpec sessions field (colVal r0 "device_id") ∧
          ∀ k, k ≠ field → colVal r1 k = colVal r0 k) ∧
    (hasColumn sessions field = false →
      join_session_field sessions target field = target) := by
  constructor
  · intro hcol
    have hjoin : join_session_field sessions target field =
        target.map (fun r =>
          setCol r field (deviceFirst sessions field (colVal r "device_id"))) := by
      simp [join_session_field, hcol]
    constructor
    · rw [hjoin]
      simp
    · intro i r0 h0
      refine ⟨setCol r0 field (deviceFirst sessions field (colVal r0 "device_id")), ?_, ?_, ?_⟩
      · rw [hjoin, List.getElem?_map, h0]
        rfl
      · rw [setCol_colVal_same, deviceFirst_eq_spec]
      · intro k hk
        exact setCol_colVal_other _ _ _ _ hk
  · intro hcol
    simp [join_session_field, hcol]

theorem join_session_field_missing_column_cex :
    hasColumn cexJoinSessions "f" = false ∧
    join_session_field cexJoinSessions cexJoinTarget "f" = cexJoinTarget ∧
    colVal [("device_id", RVal.scalar (SVal.str "A")),
      ("f", RVal.scalar (SVal.str "orig"))] "f" = RVal.scalar (SVal.str "orig") ∧
    firstFieldValueSpec cexJoinSessions "f" (RVal.scalar (SVal.str "A")) =
      RVal.scalar SVal.null ∧
    RVal.scalar (SVal.str "orig") ≠ RVal.scalar SVal.null := by
  refine ⟨by decide, by decide, by decide, by decide, by decide⟩

theorem join_session_field_spec_witness :
    (join_session_field cexPlatSessions cexPlatCrashes "app.platform").length =
      cexPlatCrashes.length ∧
    (∃ r1, (join_session_field cexPlatSessions cexPlatCrashes "app.platform")[0]? =
        some r1 ∧
      colVal r1 "app.platform" =
        firstFieldValueSpec cexPlatSessions "app.platform"
          (colVal [("device_id", RVal.scalar (SVal.str "A"))] "device_id") ∧
      ∀ k, k ≠ "app.platform" →
        colVal r1 k = colVal [("device_id", RVal.scalar (SVal.str "A"))] k) ∧
    join_session_field cexJoinSessions cexJoinTarget "g" = cexJoinTarget := by
  have h1 := join_session_field_spec cexPlatSessions cexPlatCrashes "app.platform"
  have h2 := join_session_field_spec cexJoinSessions cexJoinTarget "g"
  refine ⟨(h1.1 (by decide)).1, ?_, h2.2 (by decide)⟩
  exact (h1.1 (by decide)).2 0 [("device_id", RVal.scalar (SVal.str "A"))] (by decide)

theorem data_append_dot (s1 a : String) :
    (s1 ++ "." ++ a).data = s1.data ++ ('.' :: a.data) := by
  rw [String.data_append, String.data_append]
  simp

theorem dotfree_append_inj {xs ys as bs : List Char}
    (hx : ∀ c ∈ xs, c ≠ '.') (hy : ∀ c ∈ ys, c ≠ '.')
    (h : xs ++ '.' :: as = ys ++ '.' :: bs) : xs = ys ∧ as = bs := by
  induction xs generalizing ys with
  | nil =>
    cases ys with
    | nil => simpa using h
    | cons y ys2 =>
      simp only [List.nil_append, List.cons_append, List.cons.injEq] at h
      exact absurd h.1.symm (hy y (by simp))
  | cons x xs2 ih =>
    cases ys with
    | nil =>
      simp only [List.nil_append, List.cons_append, List.cons.injEq] at h
      exact absurd h.1 (hx x (by simp))
    | cons y ys2 =>
      simp only [List.cons_append, List.cons.injEq] at h
      obtain ⟨h1, h2⟩ := h
      obtain ⟨e1, e2⟩ := ih (fun c hc => hx c (by simp [hc]))
        (fun c hc => hy c (by simp [hc])) h2
      exact ⟨by simp [h1, e1], e2⟩

theorem dotFree_no_dot {s : String} (h : dotFree s = true) :
    ∀ c ∈ s.data, c ≠ '.' := by
  intro c hc
  have := List.all_eq_true.mp h c hc
  simpa using this

theorem section_key_ne {s1 s2 : String} (h1 : dotFree s1 = true)
    (h2 : dotFree s2 = true) (hne : s1 ≠ s2) (a b : String) :
    s1 ++ "." ++ a ≠ s2 ++ "." ++ b := by
  intro he
  have hd := congrArg String.data he
  rw [data_append_dot, data_append_dot] at hd
  have := (dotfree_append_inj (dotFree_no_dot h1) (dotFree_no_dot h2) hd).1
  exact hne (by
    cases s1
    cases s2
    exact congrArg String.mk (by simpa using this))

theorem dotfree_ne_section_key {k : String} (hk : dotFree k = true)
    (s a : String) : k ≠ s ++ "." ++ a := by
  intro he
  have hd := congrArg String.data he
  rw [data_append_dot] at hd
  have hdot : '.' ∈ k.data := by
    rw [hd]
    simp
  exact dotFree_no_dot hk '.' hdot rfl

theorem lookup_entries_ne_none {l : List (String × RVal)} {k : String}
    (h : ∀ p ∈ l, p.1 ≠ k) : l.lookup k = none := by
  induction l with
  | nil => rfl
  | cons p ps ih =>
    cases p with
    | mk a v =>
      have ha : a ≠ k := h (a, v) (by simp)
      have hb : (k == a) = false := by
        simp
        exact fun he => ha he.symm
      simp only [List.lookup, hb]
      exact ih (fun q hq => h q (by simp [hq]))

theorem lookup_flatSection_ne (ev : RawEvent) (sec : String) (k : String)
    (h : ∀ sub, (sec ++ "." ++ sub) ≠ k) :
    (flatSection ev sec).lookup k = none := by
  unfold flatSection
  cases hs : ev.lookup sec with
  | none => rfl
  | some v =>
    cases v with
    | scalar w => rfl
    | list l => rfl
    | obj m =>
      apply lookup_entries_ne_none
      intro p hp
      rcases List.mem_map.mp hp with ⟨q, hq, hqe⟩
      rw [← hqe]
      exact h q.1

theorem lookup_universal_ne (ev : RawEvent) (k : String)
    (h1 : k ≠ "event") (h2 : k ≠ "device_id") (h3 : k ≠ "timestamp")
    (h4 : k ≠ "schema_version") : (universalRow ev).lookup k = none := by
  apply lookup_entries_ne_none
  intro p hp
  simp only [universalRow, List.mem_cons] at hp
  rcases hp with hp | hp | hp | hp | hp
  · rw [hp]; exact fun he => h1 he.symm
  · rw [hp]; exact fun he => h2 he.symm
  · rw [hp]; exact fun he => h3 he.symm
  · rw [hp]; exact fun he => h4 he.symm
  · simp at hp

theorem normalizeEvent_session_shape (ev : RawEvent)
    (htag : evTag ev = some "session") :
    normalizeEvent ev =
      universalRow ev ++
        (flatSection ev "app" ++ flatSection ev "host" ++
          flatSection ev "printer" ++
          [("features", (ev.lookup "features").getD (RVal.list []))]) := by
  unfold normalizeEvent
  rw [htag]
  rfl

theorem normalizeEvent_session_features (ev : RawEvent)
    (htag : evTag ev = some "session") :
    (normalizeEvent ev).lookup "features" =
      some ((ev.lookup "features").getD (RVal.list [])) := by
  rw [normalizeEvent_session_shape ev htag]
  rw [lookup_append, lookup_universal_ne ev _ (by decide) (by decide) (by decide) (by decide)]
  rw [lookup_append]
  rw [lookup_append]
  rw [lookup_append]
  rw [lookup_flatSection_ne ev "app" _
    (fun sub => (dotfree_ne_section_key (by decide) "app" sub).symm)]
  rw [lookup_flatSection_ne ev "host" _
    (fun sub => (dotfree_ne_section_key (by decide) "host" sub).symm)]
  rw [lookup_flatSection_ne ev "printer" _
    (fun sub => (dotfree_ne_section_key (by decide) "printer" sub).symm)]
  simp [List.lookup]

/-- C7 (amended): with at least one list-valued features cell, the adoption
calculator maps each feature f to (total occurrences of f across the
list-valued features cells) / (count of sessions whose features cell is a
list) x 100, rounded to 1 decimal, entries ordered by descending raw count;
a session with a non-list features value is excluded from the denominator,
but a session record that omits the features field has it defaulted by the
normalizer to the empty list and is therefore included in the
denominator. -/
theorem feature_adoption_spec (s : List Row) (hden : 0 < featureDenom s) :
    (∀ f q, (f, q) ∈ featureAdoptionRates s ↔
        (0 < (featStream s).count f ∧
          q = pyRound
            (((featStream s).count f : ℚ) / (featureDenom s : ℚ) * 100) 1)) ∧
    featureAdoptionRates s =
      (sortDescByCount (featureCounts s)).map
        (fun e => (e.1, pyRound ((e.2 : ℚ) / (featureDenom s : ℚ) * 100) 1)) ∧
    (sortDescByCount (featureCounts s)).Pairwise (fun a b => b.2 ≤ a.2) ∧
    (∀ f c, (f, c) ∈ featureCounts s ↔
        (f ∈ featStream s ∧ c = (featStream s).count f)) ∧
    (∀ ev : RawEvent, evTag ev = some "session" → ev.lookup "features" = none →
        colVal (normalizeEvent ev) "features" = RVal.list [] ∧
        featList (normalizeEvent ev) = some []) := by
  have hrates : featureAdoptionRates s =
      (sortDescByCount (featureCounts s)).map
        (fun e => (e.1, pyRound ((e.2 : ℚ) / (featureDenom s : ℚ) * 100) 1)) := by
    simp [featureAdoptionRates, hden]
  have hcnt : ∀ f c, (f, c) ∈ featureCounts s ↔
      (f ∈ featStream s ∧ c = (featStream s).count f) := by
    intro f c
    exact tally_mem_iff _ f c
  have hsortmem : ∀ e, e ∈ sortDescByCount (featureCounts s) ↔ e ∈ featureCounts s :=
    fun e => (sortDescByCount_perm (featureCounts s)).mem_iff
  refine ⟨?_, hrates, sortDescByCount_sorted _, hcnt, ?_⟩
  · intro f q
    rw [hrates]
    constructor
    · intro hm
      rcases List.mem_map.mp hm with ⟨e, he, hee⟩
      have he2 : e ∈ featureCounts s := (hsortmem e).mp he
      rcases e with ⟨f0, c0⟩
      have hfc := (hcnt f0 c0).mp he2
      have hf0 : f0 = f := by
        have := congrArg Prod.fst hee
        simpa using this
      have hq : q = pyRound ((c0 : ℚ) / (featureDenom s : ℚ) * 100) 1 := by
        have := congrArg Prod.snd hee
        simpa using this.symm
      subst hf0
      refine ⟨?_, ?_⟩
      · exact List.count_pos_iff.mpr hfc.1
      · rw [hq, hfc.2]
    · intro ⟨hpos, hq⟩
      have hmem : f ∈ featStream s := List.count_pos_iff.mp hpos
      have hin : (f, (featStream s).count f) ∈ featureCounts s :=
        (hcnt f _).mpr ⟨hmem, rfl⟩
      have hin2 : (f, (featStream s).count f) ∈ sortDescByCount (featureCounts s) :=
        (hsortmem _).mpr hin
      rw [hq]
      exact List.mem_map.mpr ⟨(f, (featStream s).count f), hin2, rfl⟩
  · intro ev htag hmiss
    have hl := normalizeEvent_session_features ev htag
    rw [hmiss] at hl
    constructor
    · simp [colVal, hl]
    · simp [featList, colVal, hl]


theorem feature_adoption_default_cex :
    featureDenom (demoFeatSessions.map normalizeEvent) = 3 ∧
    (demoFeatSessions.countP (fun ev =>
        match ev.lookup "features" with
        | some (RVal.list _) => true
        | _ => false)) = 2 ∧
    pyRound ((1 : ℚ) / 2 * 100) 1 = 50 ∧
    featureAdoptionRates (demoFeatSessions.map normalizeEvent) =
      [(SVal.str "b", 667 / 10), (SVal.str "a", 333 / 10)] ∧
    ¬ ((SVal.str "a", (50 : ℚ)) ∈
        featureAdoptionRates (demoFeatSessions.map normalizeEvent)) := by
  have hrates : featureAdoptionRates (demoFeatSessions.map normalizeEvent) =
      [(SVal.str "b", 667 / 10), (SVal.str "a", 333 / 10)] := by
    have h1 : featureAdoptionRates (demoFeatSessions.map normalizeEvent) =
        (sortDescByCount (featureCounts (demoFeatSessions.map normalizeEvent))).map
          (fun e => (e.1, pyRound ((e.2 : ℚ) /
            (featureDenom (demoFeatSessions.map normalizeEvent) : ℚ) * 100) 1)) := by
      simp only [featureAdoptionRates]
      rw [if_pos (by decide)]
    have h2 : sortDescByCount (featureCounts (demoFeatSessions.map normalizeEvent)) =
        [(SVal.str "b", 2), (SVal.str "a", 1)] := by decide
    have h3 : featureDenom (demoFeatSessions.map normalizeEvent) = 3 := by decide
    rw [h1, h3, h2]
    simp only [List.map_cons, List.map_nil]
    rw [show ((2 : ℕ) : ℚ) = 2 from rfl, show ((1 : ℕ) : ℚ) = 1 from rfl,
      show ((3 : ℕ) : ℚ) = 3 from rfl]
    rw [show pyRound ((2 : ℚ) / 3 * 100) 1 = 667 / 10 from by norm_num [pyRound, rhe]]
    rw [show pyRound ((1 : ℚ) / 3 * 100) 1 = 333 / 10 from by norm_num [pyRound, rhe]]
  refine ⟨by decide, by decide, by norm_num [pyRound, rhe], hrates, ?_⟩
  rw [hrates]
  intro hm
  simp only [List.mem_cons, List.not_mem_nil] at hm
  rcases hm with hm | hm | hm
  · have := congrArg Prod.fst hm
    simp at this
  · have h50 := congrArg Prod.snd hm
    simp only at h50
    norm_num at h50
  · exact hm

theorem feature_adoption_spec_witness :
    ((SVal.str "a",
        pyRound (((featStream (demoFeatSessions.map normalizeEvent)).count
            (SVal.str "a") : ℚ) /
          (featureDenom (demoFeatSessions.map normalizeEvent) : ℚ) * 100) 1) ∈
        featureAdoptionRates (demoFeatSessions.map normalizeEvent)) ∧
    (sortDescByCount
        (featureCounts (demoFeatSessions.map normalizeEvent))).Pairwise
      (fun a b => b.2 ≤ a.2) := by
  have h := feature_adoption_spec (demoFeatSessions.map normalizeEvent) (by decide)
  refine ⟨?_, h.2.2.1⟩
  exact (h.1 (SVal.str "a") _).mpr ⟨by decide, rfl⟩

theorem crashPlatformLabel_eq_unknown (sessions : List Row) (r : Row) :
    (crashPlatformLabel sessions r == RVal.scalar (SVal.str "unknown")) =
      (isNA (devicePlatform sessions (colVal r "device_id")) ||
        decide (devicePlatform sessions (colVal r "device_id") =
          RVal.scalar (SVal.str "unknown"))) := by
  unfold crashPlatformLabel
  have hbeq : ∀ (x y : RVal), (x == y) = decide (x = y) := by
    intro x y
    by_cases hxy : x = y
    · simp [hxy]
    · simp [hxy]
  by_cases h : isNA (devicePlatform sessions (colVal r "device_id")) = true
  · simp [h]
  · simp [Bool.eq_false_iff.mpr h, hbeq]

/-- C10 (amended): crashes_by_platform is emitted only when the crash
relation is non-empty and the session relation is non-empty with an
app.platform column, and is otherwise absent from the crash_analysis section
entirely; when emitted, the count at the label unknown is exactly the number
of crashes whose device has no session-derived platform value together with
those whose looked-up platform is itself the literal string unknown. -/
theorem crashes_by_platform_spec (crashes sessions : List Row) :
    (crashes ≠ [] → sessions = [] → crashesByPlatform crashes sessions = none) ∧
    (crashes ≠ [] → hasColumn sessions "app.platform" = false →
      crashesByPlatform crashes sessions = none) ∧
    (∀ d, crashesByPlatform crashes sessions = some d →
      (crashes ≠ [] ∧ sessions ≠ [] ∧
        hasColumn sessions "app.platform" = true) ∧
      (∀ n, (RVal.scalar (SVal.str "unknown"), n) ∈ d ↔
        (0 < n ∧ n = crashes.countP (fun r =>
          isNA (devicePlatform sessions (colVal r "device_id")) ||
            decide (devicePlatform sessions (colVal r "device_id") =
              RVal.scalar (SVal.str "unknown")))))) := by
  refine ⟨?_, ?_, ?_⟩
  · intro hc hs
    subst hs
    simp [crashesByPlatform, List.isEmpty_iff, hc]
  · intro hc hcol
    simp [crashesByPlatform, List.isEmpty_iff, hc, hcol]
  · intro d hd
    unfold crashesByPlatform at hd
    by_cases hce : crashes.isEmpty = true
    · rw [if_pos hce] at hd
      exact absurd hd (by simp)
    · rw [if_neg hce] at hd
      by_cases hguard : ((!sessions.isEmpty) &&
          hasColumn sessions "app.platform") = true
      · rw [if_pos hguard] at hd
        rw [Bool.and_eq_true] at hguard
        have hsne : sessions ≠ [] := by
          intro he
          subst he
          simp at hguard
        have hcne : crashes ≠ [] := by
          intro he
          subst he
          simp at hce
        refine ⟨⟨hcne, hsne, hguard.2⟩, ?_⟩
        intro n
        have hdval : d = valueCounts (crashes.map (crashPlatformLabel sessions)) := by
          have := hd
          simp at this
          exact this.symm
        rw [hdval]
        rw [valueCounts_mem_iff]
        have hcount : (crashes.map (crashPlatformLabel sessions)).count
            (RVal.scalar (SVal.str "unknown")) =
            crashes.countP (fun r =>
              isNA (devicePlatform sessions (colVal r "device_id")) ||
                decide (devicePlatform sessions (colVal r "device_id") =
                  RVal.scalar (SVal.str "unknown"))) := by
          rw [List.count_eq_countP, List.countP_map]
          apply List.countP_congr
          intro r hr
          have h := crashPlatformLabel_eq_unknown sessions r
          simp only [Function.comp_apply]
          rw [h]
        constructor
        · intro ⟨hm, hn⟩
          have hpos : 0 < (crashes.map (crashPlatformLabel sessions)).count
              (RVal.scalar (SVal.str "unknown")) := List.count_pos_iff.mpr hm
          rw [hcount] at hpos hn
          exact ⟨by omega, hn⟩
        · intro ⟨hpos, hn⟩
          rw [← hcount] at hn
          have hm : RVal.scalar (SVal.str "unknown") ∈
              crashes.map (crashPlatformLabel sessions) := by
            apply List.count_pos_iff.mp
            omega
          exact ⟨hm, hn⟩
      · rw [if_neg hguard] at hd
        exact absurd hd (by simp)

theorem crashes_by_platform_unknown_cex :
    crashesByPlatform cexPlatCrashes cexPlatSessions =
      some [(RVal.scalar (SVal.str "unknown"), 1)] ∧
    devicePlatform cexPlatSessions (RVal.scalar (SVal.str "A")) =
      RVal.scalar (SVal.str "unknown") ∧
    isNA (devicePlatform cexPlatSessions (RVal.scalar (SVal.str "A"))) = false ∧
    hasColumn cexPlatSessions "app.platform" = true := by
  refine ⟨by decide, by decide, by decide, by decide⟩

theorem crashes_by_platform_spec_witness :
    crashesByPlatform cexPlatCrashes [] = none ∧
    ((RVal.scalar (SVal.str "unknown"), 1) ∈
        [(RVal.scalar (SVal.str "unknown"), 1)] ↔
      (0 < 1 ∧ 1 = cexPlatCrashes.countP (fun r =>
        isNA (devicePlatform cexPlatSessions (colVal r "device_id")) ||
          decide (devicePlatform cexPlatSessions (colVal r "device_id") =
            RVal.scalar (SVal.str "unknown"))))) := by
  have h1 := crashes_by_platform_spec cexPlatCrashes []
  have h2 := crashes_by_platform_spec cexPlatCrashes cexPlatSessions
  refine ⟨h1.1 (by decide) rfl, ?_⟩
  exact (h2.2.2 [(RVal.scalar (SVal.str "unknown"), 1)] (by decide)).2 1

/-- C3 (amended): no rate or percentage in the report divides by a zero
count: crash_rate is null with zero sessions and the 4-decimal ratio
otherwise (when any crashes exist), per-version crash rates are null for
versions with zero sessions, the update success rate is absent when there
are no attempts, the overall connected percentage is omitted when the total
duration is zero, feature adoption rates are empty when no session has a
list-valued features cell, and each outcome rate divides by the non-zero
total row count; the one exception is the boolean-adoption percentages
(hardware capabilities, thumbnail, AMS-active), which report 0, not null,
when the column has no non-null values. -/
theorem rates_zero_denominator_spec :
    (∀ crashes sessions : List Row, crashes ≠ [] → sessions = [] →
        crashRate crashes sessions = some none) ∧
    (∀ crashes sessions : List Row, crashes ≠ [] → sessions ≠ [] →
        crashRate crashes sessions =
          some (some (pyRound ((crashes.length : ℚ) / (sessions.length : ℚ)) 4))) ∧
    (∀ (crashes sessions : List Row) (ver : RVal),
        sessions.countP (fun r => decide (colVal r "app.version" = ver)) = 0 →
        crashRateForVersion crashes sessions ver = none) ∧
    (∀ nFail nSucc : ℕ, nFail + nSucc = 0 → updateSuccessRate nFail nSucc = none) ∧
    (∀ c : List Row,
        (c.map (fun r => (toNum (colVal r "session_duration_sec")).getD 0)).sum = 0 →
        overallConnectedPct c = none) ∧
    (∀ (h : List Row) (cap : String), hasColumn h cap = true →
        ((h.map (fun r => colVal r cap)).filter (fun v => !(isNA v))).length = 0 →
        capabilityPct h cap = some 0) ∧
    (∀ s : List Row, featureDenom s = 0 → featureAdoptionRates s = []) ∧
    (∀ p : List Row, ∀ e ∈ outcomeRates p,
        e.2 = pyRound ((((outcomeVals p).count e.1 : ℕ) : ℚ) /
          (p.length : ℚ) * 100) 1) := by
  refine ⟨?_, ?_, ?_, ?_, ?_, ?_, ?_, ?_⟩
  · intro crashes sessions hc hs
    subst hs
    simp [crashRate, List.isEmpty_iff, hc]
  · intro crashes sessions hc hs
    have hlen : 0 < sessions.length := List.length_pos.mpr hs
    simp [crashRate, List.isEmpty_iff, hc, hlen]
  · intro crashes sessions ver hz
    simp [crashRateForVersion, hz]
  · intro nFail nSucc hz
    simp [updateSuccessRate, hz]
  · intro c hz
    unfold overallConnectedPct
    by_cases hg : (hasColumn c "total_connected_sec" &&
        hasColumn c "session_duration_sec") = true
    · rw [if_pos hg]
      simp [hz]
    · rw [if_neg hg]
  · intro h cap hcol hz
    unfold capabilityPct
    rw [if_pos hcol]
    simp [hz]
  · intro s hz
    simp [featureAdoptionRates, hz]
  · intro p e he
    rcases List.mem_map.mp he with ⟨c, hc, hce⟩
    rcases c with ⟨v, cnt⟩
    have hfc := (valueCounts_mem_iff (outcomeVals p) v cnt).mp hc
    have hv : v = e.1 := by
      have := congrArg Prod.fst hce
      simpa using this
    have hq := congrArg Prod.snd hce
    simp only at hq
    rw [← hq, ← hv, hfc.2]

theorem capability_pct_zero_denominator_cex :
    hasColumn demoNullCapHW "capabilities.has_chamber" = true ∧
    ((demoNullCapHW.map (fun r => colVal r "capabilities.has_chamber")).filter
        (fun v => !(isNA v))) = [] ∧
    capabilityPct demoNullCapHW "capabilities.has_chamber" = some 0 ∧
    some (0 : ℚ) ≠ (none : Option ℚ) := by
  refine ⟨by decide, by decide, ?_, by simp⟩
  unfold capabilityPct
  rw [if_pos (by decide)]
  simp [show ((demoNullCapHW.map
    (fun r => colVal r "capabilities.has_chamber")).filter
      (fun v => !(isNA v))) = [] from by decide]

theorem rates_zero_denominator_spec_witness :
    crashRate cexPlatCrashes [] = some none ∧
    updateSuccessRate 0 0 = none ∧
    capabilityPct demoNullCapHW "capabilities.has_chamber" = some 0 := by
  have h := rates_zero_denominator_spec
  exact ⟨h.1 cexPlatCrashes [] (by decide) rfl,
    h.2.2.2.1 0 0 rfl,
    h.2.2.2.2.2.1 demoNullCapHW "capabilities.has_chamber" (by decide) (by decide)⟩

theorem lookup_copyFields_mem (ev : RawEvent) (ks : List String) (k : String)
    (hk : k ∈ ks) : (copyFields ev ks).lookup k = some (getR ev k) := by
  induction ks with
  | nil => simp at hk
  | cons a as ih =>
    by_cases h : k = a
    · subst h
      simp [copyFields, List.lookup]
    · have hb : (k == a) = false := by simp [h]
      rcases List.mem_cons.mp hk with h2 | h2
      · exact absurd h2 h
      · simp only [copyFields, List.map_cons, List.lookup, hb]
        exact ih h2

theorem flatSection_empty_of_not_obj (ev : RawEvent) (sec : String)
    (h : sectionIsObj ev sec = false) : flatSection ev sec = [] := by
  unfold flatSection
  unfold sectionIsObj at h
  cases hs : ev.lookup sec with
  | none => rfl
  | some v =>
    cases v with
    | scalar w => rfl
    | list l => rfl
    | obj m =>
      rw [hs] at h
      simp at h

theorem lookup_flatten_sections_none (ev : RawEvent) (secs : List String)
    (k : String)
    (h : ∀ s ∈ secs, flatSection ev s = [] ∨ (∀ sub, (s ++ "." ++ sub) ≠ k)) :
    (((secs.map (flatSection ev)).flatten).lookup k) = none := by
  induction secs with
  | nil => rfl
  | cons s ss ih =>
    simp only [List.map_cons, List.flatten_cons]
    rw [lookup_append]
    rcases h s (by simp) with he | hne
    · rw [he]
      simp only [List.lookup]
      exact ih (fun s2 hs2 => h s2 (by simp [hs2]))
    · rw [lookup_flatSection_ne ev s k hne]
      exact ih (fun s2 hs2 => h s2 (by simp [hs2]))

theorem normalizeEvent_scalar_shape (ev : RawEvent) (pr : String × List String)
    (hpr : pr ∈ scalarTagFields) (htag : evTag ev = some pr.1) :
    normalizeEvent ev = universalRow ev ++ copyFields ev pr.2 := by
  simp only [scalarTagFields, List.mem_cons] at hpr
  rcases hpr with h | h | h | h | h | h | h | h | h | h
  case inl => subst h; unfold normalizeEvent; rw [htag]; rfl
  case inr.inl => subst h; unfold normalizeEvent; rw [htag]; rfl
  case inr.inr.inl => subst h; unfold normalizeEvent; rw [htag]; rfl
  case inr.inr.inr.inl => subst h; unfold normalizeEvent; rw [htag]; rfl
  case inr.inr.inr.inr.inl => subst h; unfold normalizeEvent; rw [htag]; rfl
  case inr.inr.inr.inr.inr.inl => subst h; unfold normalizeEvent; rw [htag]; rfl
  case inr.inr.inr.inr.inr.inr.inl => subst h; unfold normalizeEvent; rw [htag]; rfl
  case inr.inr.inr.inr.inr.inr.inr.inl => subst h; unfold normalizeEvent; rw [htag]; rfl
  case inr.inr.inr.inr.inr.inr.inr.inr.inl => subst h; unfold normalizeEvent; rw [htag]; rfl
  case inr.inr.inr.inr.inr.inr.inr.inr.inr => simp at h

theorem normalizeEvent_hardware_shape (ev : RawEvent)
    (htag : evTag ev = some "hardware_profile") :
    normalizeEvent ev =
      universalRow ev ++
        ((hardwareSections.map (flatSection ev)).flatten ++
          [("display_backend", getR ev "display_backend")]) := by
  unfold normalizeEvent
  rw [htag]
  rfl

theorem normalizeEvent_panel_shape (ev : RawEvent)
    (htag : evTag ev = some "panel_usage") :
    normalizeEvent ev =
      universalRow ev ++
        ([("session_duration_sec", getR ev "session_duration_sec"),
          ("overlay_open_count", getR ev "overlay_open_count")] ++
          flatSection ev "panel_time_sec" ++ flatSection ev "panel_visits") := by
  unfold normalizeEvent
  rw [htag]
  rfl

theorem normalizeEvent_noTag_shape (ev : RawEvent) (htag : evTag ev = none) :
    normalizeEvent ev = universalRow ev := by
  unfold normalizeEvent
  rw [htag]
  simp

theorem lookup_append_left (l1 l2 : List (String × RVal)) (k : String)
    (v : RVal) (h : l1.lookup k = some v) : (l1 ++ l2).lookup k = some v := by
  rw [lookup_append, h]

theorem normalizeEvent_universal_prefix (ev : RawEvent) :
    ∃ rest, normalizeEvent ev = universalRow ev ++ rest :=
  ⟨_, rfl⟩

theorem session_tail_lookup_none (ev : RawEvent) (k : String)
    (h1 : (flatSection ev "app").lookup k = none)
    (h2 : (flatSection ev "host").lookup k = none)
    (h3 : (flatSection ev "printer").lookup k = none)
    (h4 : k ≠ "features") :
    ((flatSection ev "app" ++ flatSection ev "host" ++
        flatSection ev "printer" ++
        [("features", (ev.lookup "features").getD (RVal.list []))]).lookup k) =
      none := by
  have hAB : ((flatSection ev "app" ++ flatSection ev "host")).lookup k = none := by
    rw [lookup_append, h1, h2]
  have hABC : ((flatSection ev "app" ++ flatSection ev "host" ++
      flatSection ev "printer")).lookup k = none := by
    rw [lookup_append, hAB, h3]
  rw [lookup_append, hABC]
  have hb : (k == "features") = false := by simp [h4]
  simp [List.lookup, hb]

set_option maxHeartbeats 1600000 in
/-- C8 (amended): the normalizer is total and represents a missing field as
absent, never as zero or false: a missing allow-listed top-level field of a
scalar-payload event reads back null, a missing universal field reads back
null, a missing or non-object nested section of a session, hardware_profile
or panel_usage event contributes no dotted column at all, and an event with
no string tag yields only the four universal fields; the one exception is
the session features field, which is defaulted to the empty list (a present
value, not absence) when the key is missing. -/
theorem normalize_missing_fields_spec :
    (∀ (ev : RawEvent), ∀ pr ∈ scalarTagFields, evTag ev = some pr.1 →
        ∀ k ∈ pr.2, ev.lookup k = none →
          (normalizeEvent ev).lookup k = some (RVal.scalar SVal.null)) ∧
    (∀ (ev : RawEvent), ∀ k ∈ universalFields, ev.lookup k = none →
        (normalizeEvent ev).lookup k = some (RVal.scalar SVal.null)) ∧
    (∀ ev : RawEvent, evTag ev = some "session" → ev.lookup "features" = none →
        (normalizeEvent ev).lookup "features" = some (RVal.list [])) ∧
    (∀ ev : RawEvent, evTag ev = some "session" → ∀ sec ∈ sessionSections,
        sectionIsObj ev sec = false → ∀ sub : String,
          (normalizeEvent ev).lookup (sec ++ "." ++ sub) = none) ∧
    (∀ ev : RawEvent, evTag ev = some "hardware_profile" →
        ∀ sec ∈ hardwareSections, sectionIsObj ev sec = false → ∀ sub : String,
          (normalizeEvent ev).lookup (sec ++ "." ++ sub) = none) ∧
    (∀ ev : RawEvent, evTag ev = some "panel_usage" → ∀ sec ∈ panelSections,
        sectionIsObj ev sec = false → ∀ sub : String,
          (normalizeEvent ev).lookup (sec ++ "." ++ sub) = none) ∧
    (∀ ev : RawEvent, evTag ev = none → normalizeEvent ev = universalRow ev) := by
  refine ⟨?_, ?_, ?_, ?_, ?_, ?_, normalizeEvent_noTag_shape⟩
  · intro ev pr hpr htag k hk hmiss
    rw [normalizeEvent_scalar_shape ev pr hpr htag, lookup_append]
    have hne : k ≠ "event" ∧ k ≠ "device_id" ∧ k ≠ "timestamp" ∧
        k ≠ "schema_version" := by
      have hall : ∀ pr2 ∈ scalarTagFields, ∀ k2 ∈ pr2.2,
          k2 ≠ "event" ∧ k2 ≠ "device_id" ∧ k2 ≠ "timestamp" ∧
            k2 ≠ "schema_version" := by decide
      exact hall pr hpr k hk
    rw [lookup_universal_ne ev k hne.1 hne.2.1 hne.2.2.1 hne.2.2.2]
    rw [lookup_copyFields_mem ev pr.2 k hk]
    simp [getR, hmiss]
  · intro ev k hk hmiss
    obtain ⟨rest, hre⟩ := normalizeEvent_universal_prefix ev
    rw [hre]
    apply lookup_append_left
    simp only [universalFields, List.mem_cons] at hk
    rcases hk with hk | hk | hk | hk | hk
    · subst hk
      simp [universalRow, List.lookup, getR, hmiss]
    · subst hk
      simp [universalRow, List.lookup, getR, hmiss]
    · subst hk
      simp [universalRow, List.lookup, getR, hmiss]
    · subst hk
      simp [universalRow, List.lookup, getR, hmiss]
    · simp at hk
  · intro ev htag hmiss
    rw [normalizeEvent_session_features ev htag, hmiss]
    rfl
  · intro ev htag sec hsec hobj sub
    have hdf : ∀ t ∈ sessionSections, dotFree t = true := by decide
    have hsecnone : ∀ s ∈ sessionSections,
        (flatSection ev s).lookup (sec ++ "." ++ sub) = none := by
      intro s hs
      by_cases hse : s = sec
      · subst hse
        rw [flatSection_empty_of_not_obj ev s hobj]
        rfl
      · exact lookup_flatSection_ne ev s _
          (fun s2 => section_key_ne (hdf s hs) (hdf sec hsec) hse s2 sub)
    rw [normalizeEvent_session_shape ev htag, lookup_append]
    rw [lookup_universal_ne ev _
      (Ne.symm (dotfree_ne_section_key (by decide) sec sub))
      (Ne.symm (dotfree_ne_section_key (by decide) sec sub))
      (Ne.symm (dotfree_ne_section_key (by decide) sec sub))
      (Ne.symm (dotfree_ne_section_key (by decide) sec sub))]
    exact session_tail_lookup_none ev _
      (hsecnone "app" (by decide))
      (hsecnone "host" (by decide))
      (hsecnone "printer" (by decide))
      (Ne.symm (dotfree_ne_section_key (by decide) sec sub))
  · intro ev htag sec hsec hobj sub
    have hdf : ∀ t ∈ hardwareSections, dotFree t = true := by decide
    rw [normalizeEvent_hardware_shape ev htag, lookup_append]
    rw [lookup_universal_ne ev _
      (Ne.symm (dotfree_ne_section_key (by decide) sec sub))
      (Ne.symm (dotfree_ne_section_key (by decide) sec sub))
      (Ne.symm (dotfree_ne_section_key (by decide) sec sub))
      (Ne.symm (dotfree_ne_section_key (by decide) sec sub))]
    have hflat : (((hardwareSections.map (flatSection ev)).flatten).lookup
        (sec ++ "." ++ sub)) = none := by
      apply lookup_flatten_sections_none
      intro s hs
      by_cases hse : s = sec
      · subst hse
        exact Or.inl (flatSection_empty_of_not_obj ev s hobj)
      · exact Or.inr
          (fun s2 => section_key_ne (hdf s hs) (hdf sec hsec) hse s2 sub)
    have hb : ((sec ++ "." ++ sub) == "display_backend") = false := by
      simp [Ne.symm (@dotfree_ne_section_key "display_backend" (by decide) sec sub)]
    rw [lookup_append, hflat]
    simp [List.lookup, hb]
  · intro ev htag sec hsec hobj sub
    have hdf : ∀ t ∈ panelSections, dotFree t = true := by decide
    have hsecnone : ∀ s ∈ panelSections,
        (flatSection ev s).lookup (sec ++ "." ++ sub) = none := by
      intro s hs
      by_cases hse : s = sec
      · subst hse
        rw [flatSection_empty_of_not_obj ev s hobj]
        rfl
      · exact lookup_flatSection_ne ev s _
          (fun s2 => section_key_ne (hdf s hs) (hdf sec hsec) hse s2 sub)
    rw [normalizeEvent_panel_shape ev htag, lookup_append]
    rw [lookup_universal_ne ev _
      (Ne.symm (dotfree_ne_section_key (by decide) sec sub))
      (Ne.symm (dotfree_ne_section_key (by decide) sec sub))
      (Ne.symm (dotfree_ne_section_key (by decide) sec sub))
      (Ne.symm (dotfree_ne_section_key (by decide) sec sub))]
    have htwo : (([("session_duration_sec", getR ev "session_duration_sec"),
        ("overlay_open_count", getR ev "overlay_open_count")] :
          List (String × RVal)).lookup (sec ++ "." ++ sub)) = none := by
      have hb1 : ((sec ++ "." ++ sub) == "session_duration_sec") = false := by
        simp [Ne.symm (@dotfree_ne_section_key "session_duration_sec" (by decide) sec sub)]
      have hb2 : ((sec ++ "." ++ sub) == "overlay_open_count") = false := by
        simp [Ne.symm (@dotfree_ne_section_key "overlay_open_count" (by decide) sec sub)]
      simp [List.lookup, hb1, hb2]
    have hA : (([("session_duration_sec", getR ev "session_duration_sec"),
        ("overlay_open_count", getR ev "overlay_open_count")] ++
          flatSection ev "panel_time_sec").lookup (sec ++ "." ++ sub)) = none := by
      rw [lookup_append, htwo]
      exact hsecnone "panel_time_sec" (by decide)
    rw [lookup_append, hA]
    exact hsecnone "panel_visits" (by decide)

theorem normalize_features_default_cex :
    (([("event", RVal.scalar (SVal.str "session"))] : RawEvent).lookup
        "features") = none ∧
    (normalizeEvent [("event", RVal.scalar (SVal.str "session"))]).lookup
        "features" = some (RVal.list []) ∧
    some (RVal.list []) ≠ (some (RVal.scalar SVal.null) : Option RVal) ∧
    some (RVal.list []) ≠ (none : Option RVal) := by
  refine ⟨rfl, by decide, by decide, by decide⟩

theorem normalize_missing_fields_spec_witness :
    (normalizeEvent [("event", RVal.scalar (SVal.str "print_outcome"))]).lookup
        "outcome" = some (RVal.scalar SVal.null) ∧
    (normalizeEvent [("event", RVal.scalar (SVal.str "session"))]).lookup
        ("app" ++ "." ++ "platform") = none := by
  have h := normalize_missing_fields_spec
  refine ⟨?_, ?_⟩
  · exact h.1 [("event", RVal.scalar (SVal.str "print_outcome"))]
      ("print_outcome", printOutcomeFields) (by decide) rfl "outcome"
      (by decide) rfl
  · exact h.2.2.2.1 [("event", RVal.scalar (SVal.str "session"))] rfl "app"
      (by decide) rfl "platform"
